import Mathlib

/-!
Verification of the VocabMaster core: input classifier, multi-tier lookup
resolver, Ebbinghaus spaced-repetition scheduler, and the persistence layer
(IndexedDB-backed store with import/export).

The embedding follows the web realization of the core
(`src/modules/storage.js`, `src/modules/ebbinghaus.js`, and the dictionary
module), translating each JavaScript function into a pure Lean function.
Strings are modelled as `List Char`; JavaScript truthiness on the relevant
value shapes is modelled explicitly (`jsOrStr`, `jsOrNat`, ...); the
`Date.now()` calls inside one transition are modelled as a single instant
`now` threaded explicitly; network calls are modelled as oracle functions
in an `Env` record (a `none` result covers 404 / transport error / parse
failure, which the code treats identically).
-/

deriving instance DecidableEq for Except

namespace VocabMaster

/-! ## Text primitives -/

/-- Strings are modelled as lists of characters. -/
abbrev Str := List Char

/-- Coerce a Lean string literal to the string type of the model. -/
def strL (s : String) : Str := s.data

/-- Whitespace recognizer modelling the characters relevant to JS `trim`
and `\s` on the inputs at hand (ASCII whitespace). -/
def isWS (c : Char) : Bool :=
  c = ' ' ∨ c = '\t' ∨ c = '\n' ∨ c = '\r' ∨ c = '\x0b' ∨ c = '\x0c'

/-- JS `String.prototype.trim`: drop leading and trailing whitespace. -/
def trimL (s : Str) : Str :=
  ((s.dropWhile isWS).reverse.dropWhile isWS).reverse

/-- JS `String.prototype.toLowerCase`, modelled on the ASCII range via
`Char.toLower`. -/
def toLowerL (s : Str) : Str := s.map Char.toLower

/-- CJK codepoint test from `detectInputType`:
`/[一-鿿㐀-䶿豈-﫿]/`. -/
def isCJK (c : Char) : Bool :=
  (0x4e00 ≤ c.toNat ∧ c.toNat ≤ 0x9fff) ∨
  (0x3400 ≤ c.toNat ∧ c.toNat ≤ 0x4dbf) ∨
  (0xf900 ≤ c.toNat ∧ c.toNat ≤ 0xfaff)

/-- Accumulator-passing splitter: maximal runs of non-whitespace characters.
On an already trimmed string this computes exactly the tokens of JS
`trimmed.split(/\s+/)` (which yields no empty tokens there). -/
def wsTokensAux : Str → Str → List Str
  | [], acc => if acc.isEmpty then [] else [acc.reverse]
  | c :: rest, acc =>
    if isWS c then
      if acc.isEmpty then wsTokensAux rest []
      else acc.reverse :: wsTokensAux rest []
    else wsTokensAux rest (c :: acc)

/-- Whitespace-separated tokens of a string. -/
def wsTokens (s : Str) : List Str := wsTokensAux s []

/-- JS `x || d` for an optional string (absent or empty falls back). -/
def jsOrStr (v : Option Str) (d : Str) : Str :=
  match v with
  | some s => if s.isEmpty then d else s
  | none => d

/-- JS `x || d` for an optional number (absent or 0 falls back). -/
def jsOrNat (v : Option Nat) (d : Nat) : Nat :=
  match v with
  | some n => if n = 0 then d else n
  | none => d

/-- JS `x || d` for an optional integer (absent or 0 falls back). -/
def jsOrInt (v : Option Int) (d : Int) : Int :=
  match v with
  | some n => if n = 0 then d else n
  | none => d

/-- JS `x || null` for an optional number (absent or 0 becomes null). -/
def jsOrNatNull (v : Option Nat) : Option Nat :=
  match v with
  | some n => if n = 0 then none else some n
  | none => none

/-- JS truthiness of a `string | null` value: non-null and non-empty. -/
def jsTruthyOpt (v : Option Str) : Bool :=
  match v with
  | some s => ¬ s.isEmpty
  | none => false

/-! ## Input classifier (`detectInputType`) -/

/-- The three query classes of the classifier. -/
inductive InputType
  | word
  | phrase
  | chinese
  deriving DecidableEq

/-- Embedding of `detectInputType` (dictionary module): trim, classify
`chinese` when a CJK codepoint occurs, else `phrase` when the trimmed
text both holds whitespace and splits into more than one token, else
`word`. -/
def detectInputType (text : Str) : InputType :=
  let trimmed := trimL text
  if trimmed.any isCJK then .chinese
  else if trimmed.any isWS ∧ 1 < (wsTokens trimmed).length then .phrase
  else .word

/-! ## Lookup resolver data model -/

/-- One definition inside a meaning. `translationZh` is the per-definition
Chinese gloss filled in by `translateDefinitions` (absent before that). -/
structure DictDef where
  definition : Str
  examples : List Str := []
  translationZh : Option Str := none
  deriving DecidableEq

/-- One meaning block: part of speech plus its definitions. -/
structure DictMeaning where
  partOfSpeech : Str
  definitions : List DictDef
  synonyms : List Str := []
  deriving DecidableEq

/-- A parsed dictionary record as produced by the lookup tiers
(`lookupFreeDictionary`, `lookupWiktionary`, `createTranslationOnlyResult`).
`originalWord` models the extra `originalWord` property attached on the
Chinese bridging path (absent elsewhere). -/
structure DictData where
  word : Str
  phonetic : Str := []
  audioUrl : Option Str := none
  meanings : List DictMeaning := []
  source : Str
  originalWord : Option Str := none
  deriving DecidableEq

/-- The transient result of `lookupWord`:
`{ dictData, translation, inputType }`. -/
structure LookupRes where
  dictData : Option DictData
  translation : Str
  inputType : InputType
  deriving DecidableEq

/-- Oracle environment for the outbound calls. A `none` result models the
miss cases the code folds together: not-found status, transport error, or
payload-parse failure (each handler returns `null` on all of them).
- `freeDict`: parsed result of `lookupFreeDictionary` for a query;
- `wiki`: parsed result of `lookupWiktionary` for a query;
- `translateEnZh`: result of `translateText(text, en-to-zh)`;
- `translateZhEn`: result of `translateText(text, zh-to-en)`;
- `defZh`: result of `translateText(def.definition, en-to-zh)` used by
  `translateDefinitions`;
- `deepseek`: result of `translateWithDeepSeek` (LLM fallback). -/
structure Env where
  freeDict : Str → Option DictData
  wiki : Str → Option DictData
  translateEnZh : Str → Option Str
  translateZhEn : Str → Option Str
  defZh : Str → Option Str
  deepseek : Str → Option Str

/-- Sentinel returned by `translateWord` when translation is unavailable. -/
def transUnavailable : Str := strL "翻译暂不可用"

/-- Embedding of `translateWord`: the en-to-zh translation or the sentinel
(`result || sentinel`). -/
def translateWordM (env : Env) (text : Str) : Str :=
  jsOrStr (env.translateEnZh text) transUnavailable

/-- Embedding of `createTranslationOnlyResult`. -/
def createTranslationOnlyResult (text : Str) : DictData :=
  { word := toLowerL (trimL text)
    phonetic := []
    audioUrl := none
    meanings := []
    source := strL "translation-only" }

/-- Embedding of `translateDefinitions`: each definition gets
`translationZh = zh || empty` from the per-definition translation call. -/
def translateDefinitions (env : Env) (ms : List DictMeaning) : List DictMeaning :=
  ms.map fun m =>
    { m with definitions := m.definitions.map fun d =>
        { d with translationZh := some (jsOrStr (env.defZh d.definition) []) } }

/-- Apply `translateDefinitions` to the meanings of a record (the code mutates
`dictData.meanings` in place before returning). -/
def enrichDict (env : Env) (d : DictData) : DictData :=
  { d with meanings := translateDefinitions env d.meanings }

/-- Embedding of `handleWordLookup`: Free Dictionary, then Wiktionary, then
translation-only (when the joined translation is truthy and not the
sentinel), then the LLM fallback. -/
def handleWordLookup (env : Env) (word : Str) : LookupRes :=
  let translation := translateWordM env word
  match env.freeDict word with
  | some d => ⟨some (enrichDict env d), translation, .word⟩
  | none =>
    match env.wiki word with
    | some wd => ⟨some (enrichDict env wd), translation, .word⟩
    | none =>
      if ¬ translation.isEmpty ∧ translation ≠ transUnavailable then
        ⟨some (createTranslationOnlyResult word), translation, .word⟩
      else
        match env.deepseek word with
        | some ds =>
          if ¬ ds.isEmpty then
            ⟨some { createTranslationOnlyResult word with source := strL "deepseek" },
              ds, .word⟩
          else ⟨none, translation, .word⟩
        | none => ⟨none, translation, .word⟩

/-- Embedding of `handlePhraseLookup`: Wiktionary first, then Free
Dictionary, then translation-only, then the LLM fallback. -/
def handlePhraseLookup (env : Env) (phrase : Str) : LookupRes :=
  let translation := translateWordM env phrase
  match env.wiki phrase with
  | some wd => ⟨some (enrichDict env wd), translation, .phrase⟩
  | none =>
    match env.freeDict phrase with
    | some d => ⟨some (enrichDict env d), translation, .phrase⟩
    | none =>
      if ¬ translation.isEmpty ∧ translation ≠ transUnavailable then
        ⟨some (createTranslationOnlyResult phrase), translation, .phrase⟩
      else
        match env.deepseek phrase with
        | some ds =>
          if ¬ ds.isEmpty then
            ⟨some { createTranslationOnlyResult phrase with source := strL "deepseek" },
              ds, .phrase⟩
          else ⟨none, translation, .phrase⟩
        | none => ⟨none, translation, .phrase⟩

/-- Trailing-punctuation run recognizer: the characters of the
strip pattern anchored at the end of the translated lemma. -/
def isTrailPunct (c : Char) : Bool :=
  c = '.' ∨ c = '!' ∨ c = '?' ∨ c = ',' ∨ c = ';' ∨ c = ':'

/-- Strip the maximal trailing run of `. ! ? , ; :` (the anchored
replace-with-empty in `handleChineseLookup`). -/
def stripTrailingPunct (s : Str) : Str :=
  (s.reverse.dropWhile isTrailPunct).reverse

/-- The lookup key for the nested English lookup on the Chinese path:
`englishTranslation.toLowerCase().trim()` with the trailing punctuation
run stripped. -/
def chineseLookupKey (eng : Str) : Str :=
  stripTrailingPunct (trimL (toLowerL eng))

/-- Embedding of `handleChineseLookup`: translate zh-to-en (LLM fallback on
a falsy result); on total translation failure return a translation-only
record with the Chinese text; otherwise look the stripped lemma up in Free
Dictionary then Wiktionary, substituting the Chinese text as the displayed
word and keeping the word of the English record as `originalWord`. -/
def handleChineseLookup (env : Env) (chineseText : Str) : LookupRes :=
  let eng0 := env.translateZhEn chineseText
  let eng1 := if jsTruthyOpt eng0 then eng0 else env.deepseek chineseText
  if ¬ jsTruthyOpt eng1 then
    ⟨some (createTranslationOnlyResult chineseText), chineseText, .chinese⟩
  else
    let eng := eng1.getD []
    let key := chineseLookupKey eng
    let d0 := match env.freeDict key with
      | some d => some d
      | none => env.wiki key
    let result := match d0 with
      | some d => { d with word := chineseText, originalWord := some d.word }
      | none => createTranslationOnlyResult chineseText
    ⟨some result, eng, .chinese⟩

/-- Embedding of `lookupWord`: classify, trim, dispatch. -/
def lookupWord (env : Env) (text : Str) : LookupRes :=
  let trimmed := trimL text
  match detectInputType text with
  | .chinese => handleChineseLookup env trimmed
  | .phrase => handlePhraseLookup env trimmed
  | .word => handleWordLookup env trimmed

/-- First non-`none` element of a list of optional values. -/
def firstSome : List (Option α) → Option α
  | [] => none
  | some a :: _ => some a
  | none :: rest => firstSome rest

/-- The translation-only tier as an optional record: available exactly when
the joined translation is truthy and differs from the sentinel. -/
def transOnlyTier (env : Env) (text : Str) : Option DictData :=
  let translation := translateWordM env text
  if ¬ translation.isEmpty ∧ translation ≠ transUnavailable then
    some (createTranslationOnlyResult text)
  else none

/-- The LLM fallback tier as an optional record: available exactly when the
LLM call yields a truthy string; its record is the translation-only shape
retagged with source deepseek. -/
def llmTier (env : Env) (text : Str) : Option DictData :=
  match env.deepseek text with
  | some ds =>
    if ¬ ds.isEmpty then
      some { createTranslationOnlyResult text with source := strL "deepseek" }
    else none
  | none => none

/-- Tier-list for the `word` class, in attempt order. -/
def wordTierList (env : Env) (w : Str) : List (Option DictData) :=
  [env.freeDict w, env.wiki w, transOnlyTier env w, llmTier env w]

/-- Tier-list for the `phrase` class, in attempt order. -/
def phraseTierList (env : Env) (p : Str) : List (Option DictData) :=
  [env.wiki p, env.freeDict p, transOnlyTier env p, llmTier env p]

/-! ## Spaced-repetition scheduler (ebbinghaus.js) -/

/-- One day in milliseconds. -/
def dayMs : Nat := 24 * 60 * 60 * 1000

/-- The six finite review intervals `REVIEW_INTERVALS`, in milliseconds. -/
def REVIEW_INTERVALS : List Nat :=
  [1 * dayMs, 2 * dayMs, 4 * dayMs, 7 * dayMs, 15 * dayMs, 30 * dayMs]

/-- The interval granted to a level: the table entry for levels below its
length, a fixed 60 days at or above (mastered). Defined for the
non-negative levels the code reaches (a negative index would be undefined
in the source). -/
def intervalFor (level : Int) : Nat :=
  if level ≥ (REVIEW_INTERVALS.length : Int) then 60 * dayMs
  else REVIEW_INTERVALS.getD level.toNat 0

/-- Embedding of `getNextReviewDate`, with the `Date.now()` call threaded
explicitly as `now`. -/
def getNextReviewDate (now : Nat) (level : Int) : Nat :=
  now + intervalFor level

/-! ## Persistence store (storage.js) -/

/-- A persisted word record. The IndexedDB object store is keyed by the
`word` property. `audioUrl = none` models both a stored `null` and an
absent property (the import path writes no `audioUrl` property at all);
`lastReviewedAt = none` likewise models `null` or absence (the `saveWord`
path writes no `lastReviewedAt` property). -/
structure StoredWord where
  word : Str
  phonetic : Str
  audioUrl : Option Str
  meanings : List DictMeaning
  translation : Str
  addedAt : Nat
  nextReviewAt : Nat
  reviewCount : Nat
  level : Int
  lastReviewedAt : Option Nat
  deriving DecidableEq

/-- The store contents: the records of the `words` object store. -/
abbrev Store := List StoredWord

/-- IndexedDB `store.put` with `keyPath: word`: replace the record holding
the same key, else append. -/
def storePut (s : Store) (e : StoredWord) : Store :=
  if s.any (fun x => x.word = e.word) then
    s.map (fun x => if x.word = e.word then e else x)
  else s ++ [e]

/-- Embedding of `getWord`: fetch by the lower-cased key. -/
def storeGet (s : Store) (w : Str) : Option StoredWord :=
  s.find? (fun x => x.word = toLowerL w)

/-- The caller-supplied argument of `saveWord` (fields the function reads;
`none` models an absent property). -/
structure WordInput where
  word : Str
  phonetic : Option Str := none
  audioUrl : Option Str := none
  meanings : Option (List DictMeaning) := none
  translation : Option Str := none

/-- Embedding of `saveWord`: put a fresh entry under the lower-cased key
with `addedAt = now`, `nextReviewAt = now + 1 day`, `reviewCount = 0`,
`level = 0` (both `Date.now()` calls modelled as the same instant). -/
def saveWord (now : Nat) (s : Store) (wd : WordInput) : Store :=
  storePut s
    { word := toLowerL wd.word
      phonetic := jsOrStr wd.phonetic []
      audioUrl := match wd.audioUrl with
        | some u => if u.isEmpty then none else some u
        | none => none
      meanings := wd.meanings.getD []
      translation := jsOrStr wd.translation []
      addedAt := now
      nextReviewAt := now + dayMs
      reviewCount := 0
      level := 0
      lastReviewedAt := none }

/-- Embedding of `updateWord` specialised to the scheduler update object
`{ level, reviewCount, nextReviewAt, lastReviewedAt }`: read-modify-write
merge into the existing record, no-op when the key is absent. -/
def updateWordSched (s : Store) (w : Str) (lvl : Int) (rc : Nat)
    (nra : Nat) (lra : Nat) : Store :=
  match storeGet s w with
  | none => s
  | some existing =>
    storePut s
      { existing with
          level := lvl
          reviewCount := rc
          nextReviewAt := nra
          lastReviewedAt := some lra }

/-- Embedding of `markAsReviewed` (ebbinghaus.js): find the entry by the
lower-cased key (no-op when absent), compute the new level
(`min(level+1, 6)` on success, `0` on failure), and merge
`{ level, reviewCount+1, nextReviewAt = now + interval(newLevel),
lastReviewedAt = now }` into the record. -/
def markAsReviewed (now : Nat) (s : Store) (w : Str) (remembered : Bool) : Store :=
  match s.find? (fun x => x.word = toLowerL w) with
  | none => s
  | some entry =>
    let newLevel : Int :=
      if remembered then min (entry.level + 1) (REVIEW_INTERVALS.length : Int)
      else 0
    updateWordSched s w newLevel (entry.reviewCount + 1)
      (getNextReviewDate now newLevel) now

/-! ## Import / export (storage.js) -/

/-- One entry of a parsed import payload: the properties `importWords`
reads (a `none` models an absent property). `audioUrl` is carried to show
that the import path never persists it. -/
structure PayloadEntry where
  word : Option Str := none
  phonetic : Option Str := none
  audioUrl : Option Str := none
  meanings : Option (List DictMeaning) := none
  translation : Option Str := none
  addedAt : Option Nat := none
  nextReviewAt : Option Nat := none
  reviewCount : Option Nat := none
  level : Option Int := none
  lastReviewedAt : Option Nat := none
  deriving DecidableEq

/-- A successfully parsed import payload: either a bare array or a wrapped
object whose `words` property may be absent or not an array (then treated
as the empty list). -/
inductive ImportPayload
  | raw (entries : List PayloadEntry)
  | wrapped (words : Option (List PayloadEntry))

/-- The record list read from a parsed payload:
the bare array itself, else the words property defaulted to empty. -/
def payloadWords : ImportPayload → List PayloadEntry
  | .raw es => es
  | .wrapped ws => ws.getD []

/-- The record `importWords` puts for a fresh key: key lower-cased, listed
fields defaulted through JS truthiness, scheduler fields carried over —
and no `audioUrl` property at all. -/
def importRecord (now : Nat) (e : PayloadEntry) (w : Str) : StoredWord :=
  { word := toLowerL w
    phonetic := jsOrStr e.phonetic []
    audioUrl := none
    meanings := e.meanings.getD []
    translation := jsOrStr e.translation []
    addedAt := jsOrNat e.addedAt now
    nextReviewAt := jsOrNat e.nextReviewAt (now + dayMs)
    reviewCount := jsOrNat e.reviewCount 0
    level := jsOrInt e.level 0
    lastReviewedAt := jsOrNatNull e.lastReviewedAt }

/-- The import loop of `importWords`: skip entries with a falsy `word`
without counting; skip entries whose key already exists (counting
`skipped`); put fresh entries (counting `imported`). -/
def importLoop (now : Nat) : List PayloadEntry → Store → Nat → Nat →
    Store × Nat × Nat
  | [], s, imported, skipped => (s, imported, skipped)
  | e :: rest, s, imported, skipped =>
    match e.word with
    | none => importLoop now rest s imported skipped
    | some w =>
      if w.isEmpty then importLoop now rest s imported skipped
      else
        match storeGet s w with
        | some _ => importLoop now rest s imported (skipped + 1)
        | none =>
          importLoop now rest (storePut s (importRecord now e w))
            (imported + 1) skipped

/-- Embedding of `importWords`. The JSON-parse boundary is modelled as an
`Option ImportPayload` argument (`none` = `JSON.parse` threw). The store
component of the result is the store after the call: on a validation error
the loop is never entered, so it is the input store; the `Except` component
is the thrown error or the returned counters. -/
def importWords (now : Nat) (parsed : Option ImportPayload) (s : Store) :
    Store × Except String (Nat × Nat) :=
  match parsed with
  | none => (s, .error "文件格式错误，无法解析 JSON")
  | some data =>
    let words := payloadWords data
    if words.isEmpty then (s, .error "文件中没有找到词汇数据")
    else
      let r := importLoop now words s 0 0
      (r.1, .ok r.2)

/-- The export file shape `{ version, exportedAt, wordCount, words }`. -/
structure ExportData where
  version : Nat
  exportedAt : Str
  wordCount : Nat
  words : List StoredWord
  deriving DecidableEq

/-- Embedding of `exportAllWords`: throws (`none`) on an empty store, else
a verbatim snapshot wrapper (the ISO timestamp threaded as `nowIso`). -/
def exportAllWords (nowIso : Str) (s : Store) : Option ExportData :=
  if s.isEmpty then none
  else some { version := 1, exportedAt := nowIso, wordCount := s.length, words := s }

/-- JSON serialization of a stored record followed by the import-side read:
every property of the record becomes a present payload property
(a stored `none` serializes as `null`, which the import reads as absent
falsy, so it is modelled the same way). -/
def toPayloadEntry (e : StoredWord) : PayloadEntry :=
  { word := some e.word
    phonetic := some e.phonetic
    audioUrl := e.audioUrl
    meanings := some e.meanings
    translation := some e.translation
    addedAt := some e.addedAt
    nextReviewAt := some e.nextReviewAt
    reviewCount := some e.reviewCount
    level := some e.level
    lastReviewedAt := e.lastReviewedAt }

/-! ## Helper lemmas -/

lemma jsOrStr_some_nil (x : Str) : jsOrStr (some x) [] = x := by
  cases x <;> simp [jsOrStr]

lemma jsOrNat_some_zero (n : Nat) : jsOrNat (some n) 0 = n := by
  by_cases h : n = 0 <;> simp [jsOrNat, h]

lemma jsOrInt_some_zero (n : Int) : jsOrInt (some n) 0 = n := by
  by_cases h : n = 0 <;> simp [jsOrInt, h]

lemma any_dropWhile_eq (p q : Char → Bool) (h : ∀ c, p c = true → q c = false)
    (s : Str) : (s.dropWhile q).any p = s.any p := by
  induction s with
  | nil => rfl
  | cons c rest ih =>
    cases hq : q c with
    | true =>
      have hpc : p c = false := by
        cases hpc : p c
        · rfl
        · exact absurd (h c hpc) (by simp [hq])
      simp [List.dropWhile_cons, hq, hpc, ih]
    | false => simp [List.dropWhile_cons, hq]

lemma trimL_any (p : Char → Bool) (h : ∀ c, p c = true → isWS c = false)
    (s : Str) : (trimL s).any p = s.any p := by
  unfold trimL
  rw [List.any_reverse, any_dropWhile_eq p isWS h, List.any_reverse,
    any_dropWhile_eq p isWS h]

lemma ws_not_cjk (c : Char) (h : isWS c = true) : isCJK c = false := by
  simp [isWS] at h
  rcases h with rfl | rfl | rfl | rfl | rfl | rfl <;> decide

lemma cjk_not_ws (c : Char) (h : isCJK c = true) : isWS c = false := by
  cases hw : isWS c
  · rfl
  · rw [ws_not_cjk c hw] at h
    cases h

lemma wsTokensAux_no_ws (s : Str) (hs : s.any isWS = false) (acc : Str) :
    wsTokensAux s acc =
      if (acc.reverse ++ s).isEmpty then [] else [acc.reverse ++ s] := by
  induction s generalizing acc with
  | nil => simp [wsTokensAux, List.isEmpty_iff]
  | cons c rest ih =>
    have hrest : rest.any isWS = false := by
      simp [List.any_cons] at hs
      simpa using hs.2
    have hc : isWS c = false := by
      simp [List.any_cons] at hs
      simpa using hs.1
    have hne : (acc.reverse ++ c :: rest).isEmpty = false := by
      simp [List.isEmpty_iff]
    rw [wsTokensAux, if_neg (by simp [hc]), ih hrest, hne]
    have hne2 : ((c :: acc).reverse ++ rest).isEmpty = false := by
      simp [List.isEmpty_iff]
    rw [hne2]
    simp

lemma tokens_gt_one_imp_ws (t : Str) (h : 1 < (wsTokens t).length) :
    t.any isWS = true := by
  cases hh : t.any isWS with
  | true => rfl
  | false =>
    exfalso
    have := wsTokensAux_no_ws t hh []
    rw [wsTokens, this] at h
    split at h <;> simp at h

/-! ## C9: the input classifier -/

/-- The classification rule as the spec words it (for comparison with the
source embedding `detectInputType`): chinese when any codepoint of the
input is CJK; else phrase when the trimmed text splits into more than one
whitespace-separated token; else word. -/
def classifySpec (text : Str) : InputType :=
  if text.any isCJK then .chinese
  else if 1 < (wsTokens (trimL text)).length then .phrase
  else .word

/-- C9: `detectInputType` is a pure, deterministic, total Lean function and
agrees everywhere with the rule of the spec: any CJK codepoint forces `chinese`
regardless of token count; otherwise more than one whitespace-separated
token of the trimmed text gives `phrase`; otherwise `word`. -/
theorem detect_input_type_spec (text : Str) :
    detectInputType text = classifySpec text := by
  simp only [detectInputType, classifySpec]
  rw [trimL_any isCJK cjk_not_ws]
  by_cases h1 : text.any isCJK = true
  · simp [h1]
  · have h1f : text.any isCJK = false := by
      cases hh : text.any isCJK
      · rfl
      · exact absurd hh h1
    by_cases h2 : 1 < (wsTokens (trimL text)).length
    · have hws := tokens_gt_one_imp_ws (trimL text) h2
      simp [h1f, h2, hws]
    · simp [h1f, h2]

example : detectInputType (strL "multi word phrase") = .phrase := by decide

example : detectInputType (strL "你好") = .chinese := by decide

example : detectInputType (strL " run ") = .word := by decide

/-! ## Store lemmas -/

lemma find?_replace (s : Store) (e : StoredWord) (w : Str)
    (hw : e.word = toLowerL w) :
    s.any (fun x => x.word = e.word) = true →
    (s.map (fun x => if x.word = e.word then e else x)).find?
      (fun x => x.word = toLowerL w) = some e := by
  induction s with
  | nil => intro h; simp at h
  | cons a rest ih =>
    intro h
    by_cases ha : a.word = e.word
    · simp [List.find?, ha, hw]
    · have hrest : rest.any (fun x => x.word = e.word) = true := by
        simp [List.any_cons] at h
        rcases h with h | h
        · exact absurd h ha
        · simpa using h
      have hpa : (a.word = toLowerL w) = False := by
        simp only [eq_iff_iff, iff_false]
        intro hcon
        exact ha (hcon.trans hw.symm)
      simp [List.find?, ha, hpa, ih hrest]

lemma find?_append_self (s : Store) (e : StoredWord) (w : Str)
    (hw : e.word = toLowerL w)
    (hnone : s.any (fun x => x.word = e.word) = false) :
    (s ++ [e]).find? (fun x => x.word = toLowerL w) = some e := by
  have hfn : s.find? (fun x => x.word = toLowerL w) = none := by
    rw [List.find?_eq_none]
    intro x hx hcon
    have : s.any (fun y => y.word = e.word) = true := by
      rw [List.any_eq_true]
      exact ⟨x, hx, by simp [hw, hcon]⟩
    rw [this] at hnone
    cases hnone
  rw [List.find?_append, hfn]
  simp [List.find?, hw]

/-- Fetching the key just put returns exactly the record put. -/
lemma storeGet_storePut_self (s : Store) (e : StoredWord) (w : Str)
    (hw : e.word = toLowerL w) : storeGet (storePut s e) w = some e := by
  unfold storePut storeGet
  by_cases h : s.any (fun x => x.word = e.word) = true
  · rw [if_pos h]
    exact find?_replace s e w hw h
  · have hf : s.any (fun x => x.word = e.word) = false := by
      cases hh : s.any (fun x => x.word = e.word)
      · rfl
      · exact absurd hh h
    rw [if_neg (by simp [hf])]
    exact find?_append_self s e w hw hf

/-- Membership in a store after a put: the new record or an old one. -/
lemma mem_storePut (s : Store) (e x : StoredWord) (hx : x ∈ storePut s e) :
    x = e ∨ x ∈ s := by
  unfold storePut at hx
  split at hx
  · rcases List.mem_map.mp hx with ⟨y, hy, hxy⟩
    by_cases hyw : y.word = e.word
    · left
      rw [if_pos hyw] at hxy
      exact hxy.symm
    · right
      rw [if_neg hyw] at hxy
      exact hxy ▸ hy
  · rcases List.mem_append.mp hx with h | h
    · exact Or.inr h
    · simp at h
      exact Or.inl h

/-! ## C10: `saveWord` always re-initializes the record -/

/-- C10: after any `saveWord(wordData)` call — also when the key already
exists in the store — the record stored under the lower-cased key has
`level = 0`, `reviewCount = 0`, `addedAt = now` and
`nextReviewAt = now + 1 day`: an upsert of an existing key silently resets
its review progress. -/
theorem saveWord_resets_progress (now : Nat) (s : Store) (wd : WordInput) :
    storeGet (saveWord now s wd) wd.word =
      some
        { word := toLowerL wd.word
          phonetic := jsOrStr wd.phonetic []
          audioUrl := match wd.audioUrl with
            | some u => if u.isEmpty then none else some u
            | none => none
          meanings := wd.meanings.getD []
          translation := jsOrStr wd.translation []
          addedAt := now
          nextReviewAt := now + dayMs
          reviewCount := 0
          level := 0
          lastReviewedAt := none } := by
  exact storeGet_storePut_self s _ wd.word rfl

/-! ## C4: the review transition -/

lemma REVIEW_INTERVALS_length : REVIEW_INTERVALS.length = 6 := rfl

lemma intervalFor_pos (l : Int) (hlo : 0 ≤ l) : 0 < intervalFor l := by
  unfold intervalFor
  split
  · decide
  · rename_i hlt
    have h6 : l < 6 := by
      rw [REVIEW_INTERVALS_length] at hlt
      omega
    have hn : l.toNat < 6 := by omega
    have : ∀ n < 6, 0 < REVIEW_INTERVALS.getD n 0 := by decide
    exact this l.toNat hn

/-- C4: for an entry present in the store with `level ∈ [0, 6]`, the review
transition stores `level' = min(level+1, 6)` on success and `level' = 0` on
failure, increments `reviewCount` by exactly one, sets
`lastReviewedAt = now` and `nextReviewAt = now + interval(level')`
(`interval` = 1, 2, 4, 7, 15, 30 days for levels 0–5, a fixed 60 days at
level 6); `nextReviewAt` is strictly after the transition time. Both
`Date.now()` calls of the source transition are modelled as one instant. -/
theorem review_transition (now : Nat) (s : Store) (w : Str) (remembered : Bool)
    (entry : StoredWord)
    (hfind : s.find? (fun x => x.word = toLowerL w) = some entry)
    (hlo : 0 ≤ entry.level) (hhi : entry.level ≤ 6) :
    storeGet (markAsReviewed now s w remembered) w =
      some
        { entry with
            level := if remembered then min (entry.level + 1) 6 else 0
            reviewCount := entry.reviewCount + 1
            nextReviewAt :=
              now + intervalFor (if remembered then min (entry.level + 1) 6 else 0)
            lastReviewedAt := some now }
    ∧ now <
        now + intervalFor (if remembered then min (entry.level + 1) 6 else 0) := by
  have hword : entry.word = toLowerL w := by
    have := List.find?_some hfind
    exact of_decide_eq_true this
  have hlen : (REVIEW_INTERVALS.length : Int) = 6 := by
    rw [REVIEW_INTERVALS_length]
    rfl
  constructor
  · unfold markAsReviewed
    rw [hfind]
    unfold updateWordSched storeGet
    rw [hfind]
    rw [hlen]
    exact storeGet_storePut_self s _ w hword
  · have hpos : 0 < intervalFor (if remembered then min (entry.level + 1) 6 else 0) := by
      apply intervalFor_pos
      split
      · omega
      · omega
    omega

/-- A sample stored record used to instantiate theorems on concrete data. -/
def entryRun : StoredWord :=
  { word := strL "run"
    phonetic := strL "/rʌn/"
    audioUrl := some (strL "https://audio.example/run.mp3")
    meanings := []
    translation := strL "跑"
    addedAt := 5
    nextReviewAt := 10
    reviewCount := 2
    level := 3
    lastReviewedAt := none }

/-- Witness for C4: a concrete forgotten review at level 3 resets the level
to 0 and schedules one day ahead. -/
theorem review_transition_witness :
    storeGet (markAsReviewed 1000 [entryRun] (strL "run") false) (strL "run") =
      some
        { entryRun with
            level := 0
            reviewCount := entryRun.reviewCount + 1
            nextReviewAt := 1000 + intervalFor 0
            lastReviewedAt := some 1000 }
    ∧ 1000 < 1000 + intervalFor 0 := by
  have h := review_transition 1000 [entryRun] (strL "run") false entryRun
    (by decide) (by decide) (by decide)
  simpa using h

/-! ## C1: strict tier order, first non-empty record wins -/

lemma enrichDict_translation_only (env : Env) (t : Str) :
    enrichDict env (createTranslationOnlyResult t) = createTranslationOnlyResult t := rfl

lemma enrichDict_llm (env : Env) (t : Str) :
    enrichDict env { createTranslationOnlyResult t with source := strL "deepseek" } =
      { createTranslationOnlyResult t with source := strL "deepseek" } := rfl

/-- C1: for the `word` class the record of the resolver is the first non-`none`
entry of the tier list [PrimaryDictionary (Free Dictionary),
SecondaryDictionary (Wiktionary), TranslationOnly, LLMFallback]; for the
`phrase` class, of [SecondaryDictionary, PrimaryDictionary,
TranslationOnly, LLMFallback]. The winning record is returned as-is apart
from the per-definition gloss fill of the independent translation join
(`translateDefinitions`, the identity on the placeholder tiers); no field
of any later tier can reach the result, because `firstSome` never
inspects the tiers after the first hit. -/
theorem tier_waterfall_first_success (env : Env) (w p : Str) :
    (handleWordLookup env w).dictData =
      (firstSome (wordTierList env w)).map (enrichDict env)
    ∧ (handlePhraseLookup env p).dictData =
      (firstSome (phraseTierList env p)).map (enrichDict env) := by
  constructor
  · unfold handleWordLookup wordTierList transOnlyTier llmTier
    cases hfd : env.freeDict w with
    | some d => simp [firstSome]
    | none =>
      cases hwk : env.wiki w with
      | some wd => simp [firstSome]
      | none =>
        by_cases htr : ¬ translateWordM env w = [] ∧
            ¬ translateWordM env w = transUnavailable
        · simp [htr, firstSome, enrichDict_translation_only]
        · cases hds : env.deepseek w with
          | some ds =>
            by_cases hne : ds = []
            · simp [htr, hds, hne, firstSome]
            · simp [htr, hds, hne, firstSome, enrichDict_llm]
          | none => simp [htr, hds, firstSome]
  · unfold handlePhraseLookup phraseTierList transOnlyTier llmTier
    cases hwk : env.wiki p with
    | some wd => simp [firstSome]
    | none =>
      cases hfd : env.freeDict p with
      | some d => simp [firstSome]
      | none =>
        by_cases htr : ¬ translateWordM env p = [] ∧
            ¬ translateWordM env p = transUnavailable
        · simp [htr, firstSome, enrichDict_translation_only]
        · cases hds : env.deepseek p with
          | some ds =>
            by_cases hne : ds = []
            · simp [htr, hds, hne, firstSome]
            · simp [htr, hds, hne, firstSome, enrichDict_llm]
          | none => simp [htr, hds, firstSome]

/-! ## C2: Chinese bridging -/

/-- Oracle environment on which the zh-to-en translation of 你好 succeeds
with hello but both nested dictionaries miss every key. -/
def envBridgeMiss : Env :=
  { freeDict := fun _ => none
    wiki := fun _ => none
    translateEnZh := fun _ => none
    translateZhEn := fun q => if q = strL "你好" then some (strL "hello") else none
    defZh := fun _ => none
    deepseek := fun _ => none }

/-- Counterexample to C2: the claim is universal over chinese inputs, but
when the bridging translation succeeds and both nested dictionaries miss
the resolved lemma, the code returns `createTranslationOnlyResult` of the
Chinese text: a record keyed by the (lower-cased, trimmed) Chinese text
itself with no `originalWord` — its internal key and lookup identity is
not the resolved English lemma. -/
theorem chinese_bridging_counterexample :
    handleChineseLookup envBridgeMiss (strL "你好") =
      ⟨some (createTranslationOnlyResult (strL "你好")), strL "hello", .chinese⟩
    ∧ (createTranslationOnlyResult (strL "你好")).word = strL "你好"
    ∧ (createTranslationOnlyResult (strL "你好")).word ≠ strL "hello"
    ∧ (createTranslationOnlyResult (strL "你好")).originalWord = none := by
  refine ⟨by decide, rfl, by decide, rfl⟩

/-- C2 (amended): when the zh-to-en translation yields a truthy string
`eng`, the nested English lookup key is `eng` lower-cased, trimmed, with
the trailing run of `. ! ? , ; :` stripped (translating to Hello-dot
bridges to the lookup key hello), and the nested tier-list is queried at
that key, Primary dictionary first, then the Wiktionary fallback. When
either nested dictionary resolves the key, the returned record shows the
original Chinese text as its word (display form), keeps the word of the
resolved English record as `originalWord` (the lookup identity), and the
translation of the result is the unstripped translated string. When both
nested dictionaries miss, the record is instead the translation-only
placeholder keyed by the Chinese text itself — not the English lemma —
still carrying the unstripped translation. -/
theorem chinese_bridging (env : Env) (t eng : Str)
    (h1 : env.translateZhEn t = some eng) (hne : eng ≠ []) :
    (∀ d, env.freeDict (chineseLookupKey eng) = some d →
      handleChineseLookup env t =
        ⟨some { d with word := t, originalWord := some d.word }, eng, .chinese⟩)
    ∧ (env.freeDict (chineseLookupKey eng) = none →
      ∀ d, env.wiki (chineseLookupKey eng) = some d →
      handleChineseLookup env t =
        ⟨some { d with word := t, originalWord := some d.word }, eng, .chinese⟩)
    ∧ (env.freeDict (chineseLookupKey eng) = none →
      env.wiki (chineseLookupKey eng) = none →
      handleChineseLookup env t =
        ⟨some (createTranslationOnlyResult t), eng, .chinese⟩)
    ∧ chineseLookupKey eng = stripTrailingPunct (trimL (toLowerL eng))
    ∧ chineseLookupKey (strL "Hello.") = strL "hello" := by
  have htr : jsTruthyOpt (some eng) = true := by
    simp [jsTruthyOpt, List.isEmpty_iff, hne]
  refine ⟨?_, ?_, ?_, rfl, by decide⟩
  · intro d hfd
    unfold handleChineseLookup
    rw [h1]
    simp [htr, hfd]
  · intro hfd d hwk
    unfold handleChineseLookup
    rw [h1]
    simp [htr, hfd, hwk]
  · intro hfd hwk
    unfold handleChineseLookup
    rw [h1]
    simp [htr, hfd, hwk]

/-- Concrete Free Dictionary record for the bridging witness. -/
def dHello : DictData :=
  { word := strL "hello"
    phonetic := strL "/həˈləʊ/"
    audioUrl := none
    meanings := []
    source := strL "free-dictionary" }

/-- Concrete oracle environment for the bridging witness: zh-to-en
translates 你好 to hello, and the Primary dictionary knows hello. -/
def envBridge : Env :=
  { freeDict := fun q => if q = strL "hello" then some dHello else none
    wiki := fun _ => none
    translateEnZh := fun _ => none
    translateZhEn := fun q => if q = strL "你好" then some (strL "hello") else none
    defZh := fun _ => none
    deepseek := fun _ => none }

/-- Like `envBridge` but with hello known only to the Wiktionary fallback
of the nested lookup. -/
def envBridgeWiki : Env :=
  { freeDict := fun _ => none
    wiki := fun q => if q = strL "hello" then some dHello else none
    translateEnZh := fun _ => none
    translateZhEn := fun q => if q = strL "你好" then some (strL "hello") else none
    defZh := fun _ => none
    deepseek := fun _ => none }

/-- Witness for C2 (amended): looking up 你好 bridges to hello on both
nested tiers — Primary hit and Wiktionary-fallback hit — and in each case
the record displays 你好, keeps hello as the lookup identity, and the
translation is hello; on the both-miss environment the placeholder comes
back instead. -/
theorem chinese_bridging_witness :
    handleChineseLookup envBridge (strL "你好") =
      ⟨some { dHello with word := strL "你好", originalWord := some (strL "hello") },
        strL "hello", .chinese⟩
    ∧ handleChineseLookup envBridgeWiki (strL "你好") =
        ⟨some { dHello with word := strL "你好", originalWord := some (strL "hello") },
          strL "hello", .chinese⟩
    ∧ handleChineseLookup envBridgeMiss (strL "你好") =
        ⟨some (createTranslationOnlyResult (strL "你好")), strL "hello", .chinese⟩
    ∧ chineseLookupKey (strL "Hello.") = strL "hello" := by
  have h1 := chinese_bridging envBridge (strL "你好") (strL "hello")
    (by decide) (by decide)
  have h2 := chinese_bridging envBridgeWiki (strL "你好") (strL "hello")
    (by decide) (by decide)
  have h3 := chinese_bridging envBridgeMiss (strL "你好") (strL "hello")
    (by decide) (by decide)
  exact ⟨h1.1 dHello (by decide), h2.2.1 (by decide) dHello (by decide),
    h3.2.2.1 (by decide) (by decide), h1.2.2.2.2⟩

/-! ## C3: behaviour when every tier misses -/

/-- The oracle environment in which every outbound call fails. -/
def envAllMiss : Env :=
  { freeDict := fun _ => none
    wiki := fun _ => none
    translateEnZh := fun _ => none
    translateZhEn := fun _ => none
    defZh := fun _ => none
    deepseek := fun _ => none }

/-- Counterexample to C3: on the Chinese input 你 with every tier missing,
the resolver does not return a null record — it returns a translation-only
placeholder record (and echoes the input as the translation), so the claim
fails for the chinese class. -/
theorem all_tiers_miss_counterexample :
    detectInputType (strL "你") = .chinese
    ∧ (lookupWord envAllMiss (strL "你")).dictData =
        some (createTranslationOnlyResult (strL "你"))
    ∧ (lookupWord envAllMiss (strL "你")).dictData ≠ none := by
  refine ⟨by decide, rfl, by decide⟩

/-- C3 (amended): when every tier misses, the resolver never throws (it is
a total function) and returns a record-less result only for the `word` and
`phrase` classes, whose `translation` is the translation-branch output (the
sentinel 翻译暂不可用 rather than null when the translation call failed);
for the `chinese` class it instead returns a translation-only placeholder
record echoing the input, never a null record. -/
theorem all_tiers_miss_amended (env : Env) (w p t : Str)
    (hfd : env.freeDict w = none) (hwk : env.wiki w = none)
    (htr : ¬ (¬ translateWordM env w = [] ∧
      ¬ translateWordM env w = transUnavailable))
    (hds : env.deepseek w = none)
    (hfd2 : env.freeDict p = none) (hwk2 : env.wiki p = none)
    (htr2 : ¬ (¬ translateWordM env p = [] ∧
      ¬ translateWordM env p = transUnavailable))
    (hds2 : env.deepseek p = none)
    (hzh : jsTruthyOpt (env.translateZhEn t) = false)
    (hds3 : jsTruthyOpt (env.deepseek t) = false) :
    handleWordLookup env w = ⟨none, translateWordM env w, .word⟩
    ∧ handlePhraseLookup env p = ⟨none, translateWordM env p, .phrase⟩
    ∧ handleChineseLookup env t =
        ⟨some (createTranslationOnlyResult t), t, .chinese⟩ := by
  refine ⟨?_, ?_, ?_⟩
  · unfold handleWordLookup
    rw [hfd, hwk, hds]
    simp [htr]
  · unfold handlePhraseLookup
    rw [hwk2, hfd2, hds2]
    simp [htr2]
  · unfold handleChineseLookup
    simp [hzh, hds3]

/-- Witness for C3 (amended) at concrete inputs under the all-miss
environment. -/
theorem all_tiers_miss_witness :
    handleWordLookup envAllMiss (strL "cat") =
      ⟨none, translateWordM envAllMiss (strL "cat"), .word⟩
    ∧ handlePhraseLookup envAllMiss (strL "a b") =
        ⟨none, translateWordM envAllMiss (strL "a b"), .phrase⟩
    ∧ handleChineseLookup envAllMiss (strL "谢谢") =
        ⟨some (createTranslationOnlyResult (strL "谢谢")), strL "谢谢", .chinese⟩ := by
  have h := all_tiers_miss_amended envAllMiss (strL "cat") (strL "a b") (strL "谢谢")
    rfl rfl (by decide) rfl rfl rfl (by decide) rfl (by decide) (by decide)
  simpa using h

/-! ## C7: import validation is atomic -/

/-- C7: an unparsable payload or an empty record set aborts the import with
a validation error that reaches the caller (the thrown message), and with
zero side effects: the store after the call is exactly the store before
(the loop that writes records is never entered). -/
theorem import_validation_atomic (now : Nat) (s : Store) (data : ImportPayload)
    (hempty : payloadWords data = []) :
    (importWords now none s).1 = s
    ∧ (importWords now none s).2 = .error "文件格式错误，无法解析 JSON"
    ∧ (importWords now (some data) s).1 = s
    ∧ (importWords now (some data) s).2 = .error "文件中没有找到词汇数据" := by
  refine ⟨rfl, rfl, ?_, ?_⟩ <;> simp [importWords, hempty]

/-- Witness for C7: a wrapped payload without a words array aborts and
leaves a concrete one-record store untouched. -/
theorem import_validation_witness :
    (importWords 0 none [entryRun]).1 = [entryRun]
    ∧ (importWords 0 none [entryRun]).2 = .error "文件格式错误，无法解析 JSON"
    ∧ (importWords 0 (some (.wrapped none)) [entryRun]).1 = [entryRun]
    ∧ (importWords 0 (some (.wrapped none)) [entryRun]).2
        = .error "文件中没有找到词汇数据" :=
  import_validation_atomic 0 [entryRun] (.wrapped none) rfl

/-! ## C5: import conflict policy -/

/-- A payload entry carrying an audio URL and non-trivial scheduler state. -/
def ceAudio : PayloadEntry :=
  { word := some (strL "abc")
    phonetic := some (strL "p")
    audioUrl := some (strL "https://a.example/x.mp3")
    meanings := some []
    translation := some (strL "t")
    addedAt := some 5
    nextReviewAt := some 999
    reviewCount := some 2
    level := some 3
    lastReviewedAt := some 7 }

/-- Counterexample to C5: importing a fresh-key record carrying an
`audioUrl` into an empty store does count it as imported, but the persisted
record is not the payload record verbatim — its `audioUrl` is dropped
(the import path never writes that field). -/
theorem import_verbatim_counterexample :
    (importWords 1000 (some (.raw [ceAudio])) []).2 = .ok (1, 0)
    ∧ (importWords 1000 (some (.raw [ceAudio])) []).1.map (fun e => e.audioUrl)
        = [none]
    ∧ ceAudio.audioUrl = some (strL "https://a.example/x.mp3") := by
  decide

/-- A minimal payload entry holding only a word key. -/
def mkPayloadWord (s : String) : PayloadEntry := { word := some (strL s) }

/-- A minimal stored record for a given key. -/
def mkStored (s : String) : StoredWord :=
  { word := strL s
    phonetic := []
    audioUrl := none
    meanings := []
    translation := []
    addedAt := 1
    nextReviewAt := 2
    reviewCount := 0
    level := 0
    lastReviewedAt := none }

/-- Ten payload records for the counting check. -/
def tenPayload : List PayloadEntry :=
  [mkPayloadWord "w1", mkPayloadWord "w2", mkPayloadWord "w3",
   mkPayloadWord "w4", mkPayloadWord "w5", mkPayloadWord "w6",
   mkPayloadWord "w7", mkPayloadWord "w8", mkPayloadWord "w9",
   mkPayloadWord "w10"]

/-- A store already holding three of the ten keys. -/
def threeStore : Store := [mkStored "w2", mkStored "w5", mkStored "w9"]

/-- C5 (amended): an import step on an entry whose truthy key already
exists leaves the store byte-for-byte unchanged and increments `skipped`;
a new key increments `imported` and persists a record that preserves the
scheduler fields of the payload (`level`, `reviewCount`, `nextReviewAt`,
`lastReviewedAt`, via JS falsy-defaulting) under the lower-cased key — but
not verbatim: the `audioUrl` of the stored record is always absent. Importing
10 records into a store holding 3 overlapping keys yields
`{imported: 7, skipped: 3}`. -/
theorem import_conflict_policy (now : Nat) (e : PayloadEntry)
    (rest : List PayloadEntry) (s : Store) (imported skipped : Nat) (w : Str)
    (hw : e.word = some w) (hne : w ≠ []) :
    ((∃ ex, storeGet s w = some ex) →
      importLoop now (e :: rest) s imported skipped
        = importLoop now rest s imported (skipped + 1))
    ∧ (storeGet s w = none →
      importLoop now (e :: rest) s imported skipped
        = importLoop now rest (storePut s (importRecord now e w))
            (imported + 1) skipped)
    ∧ (importRecord now e w).level = jsOrInt e.level 0
    ∧ (importRecord now e w).reviewCount = jsOrNat e.reviewCount 0
    ∧ (importRecord now e w).nextReviewAt = jsOrNat e.nextReviewAt (now + dayMs)
    ∧ (importRecord now e w).lastReviewedAt = jsOrNatNull e.lastReviewedAt
    ∧ (importRecord now e w).audioUrl = none
    ∧ (importRecord now e w).word = toLowerL w
    ∧ (importWords 0 (some (.raw tenPayload)) threeStore).2 = .ok (7, 3) := by
  have hE : w.isEmpty = false := by
    cases hh : w.isEmpty
    · rfl
    · exact absurd (List.isEmpty_iff.mp hh) hne
  refine ⟨?_, ?_, rfl, rfl, rfl, rfl, rfl, rfl, by decide⟩
  · rintro ⟨ex, hex⟩
    simp [importLoop, hw, hE, hex]
  · intro hnone
    simp [importLoop, hw, hE, hnone]

/-- Witness for C5 (amended): a skip step on the overlapping key w2 and an
insert step on the fresh key w1, with the dropped `audioUrl` shown. -/
theorem import_conflict_policy_witness :
    importLoop 0 [mkPayloadWord "w1"] threeStore 0 0
      = importLoop 0 []
          (storePut threeStore (importRecord 0 (mkPayloadWord "w1") (strL "w1"))) 1 0
    ∧ importLoop 0 [mkPayloadWord "w2"] threeStore 0 0
        = importLoop 0 [] threeStore 0 1
    ∧ (importRecord 0 (mkPayloadWord "w1") (strL "w1")).audioUrl = none := by
  have h1 := import_conflict_policy 0 (mkPayloadWord "w1") [] threeStore 0 0
    (strL "w1") rfl (by decide)
  have h2 := import_conflict_policy 0 (mkPayloadWord "w2") [] threeStore 0 0
    (strL "w2") rfl (by decide)
  exact ⟨h1.2.1 (by decide), h2.1 ⟨mkStored "w2", by decide⟩,
    h1.2.2.2.2.2.2.1⟩

/-! ## C6: export then import round-trip -/

/-- The audio-less projection of a stored record: what the import path can
reproduce at best. -/
def dropAudio (e : StoredWord) : StoredWord := { e with audioUrl := none }

/-- A stored record carrying an audio URL, as `saveWord` produces for a
Primary-dictionary hit. -/
def catRecord : StoredWord :=
  { word := strL "cat"
    phonetic := strL "/kæt/"
    audioUrl := some (strL "https://a.example/cat.mp3")
    meanings := []
    translation := strL "猫"
    addedAt := 5
    nextReviewAt := 9
    reviewCount := 0
    level := 0
    lastReviewedAt := none }

/-- Counterexample to C6: exporting a store holding one record with an
`audioUrl` and importing the payload into an empty store does not
reproduce an identical record set — the reimported record lost its
`audioUrl`. -/
theorem roundtrip_counterexample :
    exportAllWords (strL "2026-10-12") [catRecord]
      = some { version := 1, exportedAt := strL "2026-10-12", wordCount := 1,
               words := [catRecord] }
    ∧ (importWords 100
        (some (.wrapped (some ([catRecord].map toPayloadEntry)))) []).1
        ≠ [catRecord]
    ∧ (importWords 100
        (some (.wrapped (some ([catRecord].map toPayloadEntry)))) []).1.map
          (fun e => e.audioUrl) = [none] := by
  refine ⟨rfl, by decide, by decide⟩

/-- Well-formedness of a record as the operations of the store produce it:
non-empty lower-cased key, non-zero timestamps, no zero review time. -/
def wfRecord (e : StoredWord) : Prop :=
  e.word ≠ [] ∧ e.word = toLowerL e.word ∧ e.addedAt ≠ 0
    ∧ e.nextReviewAt ≠ 0 ∧ e.lastReviewedAt ≠ some 0

instance (e : StoredWord) : Decidable (wfRecord e) := by
  unfold wfRecord
  infer_instance

lemma importRecord_toPayloadEntry (now : Nat) (e : StoredWord)
    (hwf : wfRecord e) :
    importRecord now (toPayloadEntry e) e.word = dropAudio e := by
  obtain ⟨hw1, hw2, hw3, hw4, hw5⟩ := hwf
  have h5 : jsOrNatNull e.lastReviewedAt = e.lastReviewedAt := by
    cases hl : e.lastReviewedAt with
    | none => rfl
    | some t =>
      have ht : t ≠ 0 := by
        rintro rfl
        exact hw5 hl
      simp [jsOrNatNull, ht]
  have hrc : jsOrNat (some e.reviewCount) 0 = e.reviewCount := jsOrNat_some_zero _
  have hadd : jsOrNat (some e.addedAt) now = e.addedAt := by simp [jsOrNat, hw3]
  have hnra : jsOrNat (some e.nextReviewAt) (now + dayMs) = e.nextReviewAt := by
    simp [jsOrNat, hw4]
  have hlvl : jsOrInt (some e.level) 0 = e.level := jsOrInt_some_zero _
  unfold importRecord toPayloadEntry dropAudio
  simp [jsOrStr_some_nil, hrc, hadd, hnra, hlvl, h5, ← hw2]

lemma roundtrip_loop (now : Nat) (s : List StoredWord) (acc : Store)
    (imported skipped : Nat)
    (hwf : ∀ e ∈ s, wfRecord e)
    (hnodup : s.Pairwise (fun a b => a.word ≠ b.word))
    (hacc : ∀ e ∈ s, acc.find? (fun x => x.word = e.word) = none) :
    importLoop now (s.map toPayloadEntry) acc imported skipped
      = (acc ++ s.map dropAudio, imported + s.length, skipped) := by
  induction s generalizing acc imported with
  | nil => simp [importLoop]
  | cons e rest ih =>
    obtain ⟨hw1, hw2, hw3, hw4, hw5⟩ := hwf e (by simp)
    have hE : e.word.isEmpty = false := by
      cases hh : e.word.isEmpty
      · rfl
      · exact absurd (List.isEmpty_iff.mp hh) hw1
    have hget : storeGet acc e.word = none := by
      unfold storeGet
      rw [← hw2]
      exact hacc e (by simp)
    have hrec : importRecord now (toPayloadEntry e) e.word = dropAudio e :=
      importRecord_toPayloadEntry now e ⟨hw1, hw2, hw3, hw4, hw5⟩
    have hput : storePut acc (dropAudio e) = acc ++ [dropAudio e] := by
      unfold storePut
      rw [if_neg]
      intro hany
      rcases List.any_eq_true.mp hany with ⟨x, hx, hxw⟩
      have hfn := hacc e (by simp)
      rw [List.find?_eq_none] at hfn
      exact hfn x hx (by simpa [dropAudio] using hxw)
    have hpair := List.pairwise_cons.mp hnodup
    have hacc2 : ∀ x ∈ rest,
        (acc ++ [dropAudio e]).find? (fun y => y.word = x.word) = none := by
      intro x hx
      rw [List.find?_append, hacc x (by simp [hx])]
      have hne : e.word ≠ x.word := hpair.1 x hx
      simp [List.find?, dropAudio, hne]
    simp only [toPayloadEntry] at hrec
    rw [List.map_cons]
    rw [importLoop]
    simp only [toPayloadEntry, hE, hget, hrec, hput, Bool.false_eq_true, if_false]
    rw [ih (acc ++ [dropAudio e]) (imported + 1)
      (fun x hx => hwf x (by simp [hx])) hpair.2 hacc2]
    simp [List.append_assoc]
    omega

/-- C6 (amended): for every non-empty store of well-formed records with
pairwise-distinct keys, exporting and importing the payload into an empty
store reproduces every record field-for-field except `audioUrl`, which
the importer drops: the resulting record set is the audio-less projection of the
original, with every record counted as imported. The claim as stated only
fails on the dropped `audioUrl` field (and cannot run at all on an empty
store, whose export throws). -/
theorem export_import_roundtrip (now : Nat) (nowIso : Str) (s : Store)
    (hne : s ≠ [])
    (hwf : ∀ e ∈ s, wfRecord e)
    (hnodup : s.Pairwise (fun a b => a.word ≠ b.word)) :
    ∃ payload, exportAllWords nowIso s = some payload
    ∧ importWords now (some (.wrapped (some (payload.words.map toPayloadEntry)))) []
        = (s.map dropAudio, .ok (s.length, 0)) := by
  refine ⟨{ version := 1, exportedAt := nowIso, wordCount := s.length,
            words := s }, ?_, ?_⟩
  · unfold exportAllWords
    rw [if_neg (by simp [List.isEmpty_iff, hne])]
  · have hwne : (s.map toPayloadEntry).isEmpty = false := by
      simp [List.isEmpty_iff, hne]
    unfold importWords payloadWords
    simp only [Option.getD_some, hwne, Bool.false_eq_true, if_false]
    rw [roundtrip_loop now s [] 0 0 hwf hnodup (fun e he => rfl)]
    simp

/-- Witness for C6 (amended) on a concrete one-record store: the round
trip reproduces the record except for its dropped `audioUrl`. -/
theorem export_import_roundtrip_witness :
    ∃ payload, exportAllWords (strL "2026-02-26") [catRecord] = some payload
    ∧ importWords 7 (some (.wrapped (some (payload.words.map toPayloadEntry)))) []
        = ([catRecord].map dropAudio, .ok (1, 0)) :=
  export_import_roundtrip 7 (strL "2026-02-26") [catRecord] (by decide)
    (by decide) (by simp)

/-! ## C8: the level range invariant -/

/-- Store states reachable from the empty store by the public operations
exactly as the claim lists them: `saveWord` upserts, review transitions,
and imports of arbitrary parsed payloads. -/
inductive Reachable : Store → Prop
  | empty : Reachable []
  | save (now : Nat) (wd : WordInput) {s : Store} :
      Reachable s → Reachable (saveWord now s wd)
  | review (now : Nat) (w : Str) (remembered : Bool) {s : Store} :
      Reachable s → Reachable (markAsReviewed now s w remembered)
  | imp (now : Nat) (parsed : Option ImportPayload) {s : Store} :
      Reachable s → Reachable (importWords now parsed s).1

/-- A payload record whose `level` lies outside the documented range. -/
def levelSevenEntry : PayloadEntry := { word := some (strL "abc"), level := some 7 }

/-- Counterexample to C8: one import of a payload record with `level = 7`
reaches a store state holding a record with `level = 7 > 6` — the import
path persists the payload level without clamping, so the invariant fails
on reachable states. -/
theorem level_invariant_counterexample :
    Reachable (importWords 0 (some (.raw [levelSevenEntry])) []).1
    ∧ (importWords 0 (some (.raw [levelSevenEntry])) []).1.map (fun e => e.level)
        = [7]
    ∧ ¬ ((7 : Int) ≤ 6) :=
  ⟨Reachable.imp 0 _ Reachable.empty, by decide, by decide⟩

/-- The record list a parsed payload carries (empty when unparsed). -/
def parsedEntries : Option ImportPayload → List PayloadEntry
  | none => []
  | some d => payloadWords d

/-- A parsed payload is level-safe when each of its records carries a level
that lands in `[0, 6]` after JS falsy-defaulting. -/
def levelSafe (parsed : Option ImportPayload) : Prop :=
  ∀ e ∈ parsedEntries parsed, 0 ≤ jsOrInt e.level 0 ∧ jsOrInt e.level 0 ≤ 6

/-- Store states reachable from the empty store when every import payload
is level-safe (the amendment the counterexample forces). -/
inductive ReachableSafe : Store → Prop
  | empty : ReachableSafe []
  | save (now : Nat) (wd : WordInput) {s : Store} :
      ReachableSafe s → ReachableSafe (saveWord now s wd)
  | review (now : Nat) (w : Str) (remembered : Bool) {s : Store} :
      ReachableSafe s → ReachableSafe (markAsReviewed now s w remembered)
  | imp (now : Nat) (parsed : Option ImportPayload) {s : Store} :
      ReachableSafe s → levelSafe parsed →
      ReachableSafe (importWords now parsed s).1

lemma importLoop_level_inv (now : Nat) (es : List PayloadEntry) :
    ∀ (s : Store) (imported skipped : Nat),
    (∀ x ∈ s, 0 ≤ x.level ∧ x.level ≤ 6) →
    (∀ e ∈ es, 0 ≤ jsOrInt e.level 0 ∧ jsOrInt e.level 0 ≤ 6) →
    ∀ x ∈ (importLoop now es s imported skipped).1,
      0 ≤ x.level ∧ x.level ≤ 6 := by
  induction es with
  | nil =>
    intro s imported skipped hs _ x hx
    exact hs x (by simpa [importLoop] using hx)
  | cons e rest ih =>
    intro s imported skipped hs hes x hx
    rw [importLoop] at hx
    cases hw : e.word with
    | none =>
      simp only [hw] at hx
      exact ih s imported skipped hs (fun y hy => hes y (by simp [hy])) x hx
    | some w =>
      simp only [hw] at hx
      by_cases hwe : w.isEmpty = true
      · simp only [hwe, if_true] at hx
        exact ih s imported skipped hs (fun y hy => hes y (by simp [hy])) x hx
      · have hwe2 : w.isEmpty = false := by
          cases hh : w.isEmpty
          · rfl
          · exact absurd hh hwe
        simp only [hwe2, Bool.false_eq_true, if_false] at hx
        cases hget : storeGet s w with
        | some ex =>
          simp only [hget] at hx
          exact ih s imported (skipped + 1) hs
            (fun y hy => hes y (by simp [hy])) x hx
        | none =>
          simp only [hget] at hx
          refine ih (storePut s (importRecord now e w)) (imported + 1) skipped
            ?_ (fun y hy => hes y (by simp [hy])) x hx
          intro y hy
          rcases mem_storePut _ _ _ hy with rfl | hmem
          · have := hes e (by simp)
            simpa [importRecord] using this
          · exact hs y hmem

/-- C8 (amended): every store state reachable from the empty store by
`saveWord` upserts, review transitions, and imports whose payload records
all carry levels in `[0, 6]` satisfies the invariant: the level of every record
is an integer that is never negative and never above 6. (The restriction
on import payloads is forced: the unrestricted claim fails, since
the importer persists out-of-range levels verbatim.) -/
theorem level_invariant (s : Store) (h : ReachableSafe s) :
    ∀ e ∈ s, 0 ≤ e.level ∧ e.level ≤ 6 := by
  induction h with
  | empty => intro e he; cases he
  | save now wd hr ih =>
    rename_i s0
    intro x hx
    unfold saveWord at hx
    rcases mem_storePut _ _ _ hx with rfl | hmem
    · exact ⟨by norm_num, by norm_num⟩
    · exact ih x hmem
  | review now w remembered hr ih =>
    rename_i s0
    intro x hx
    unfold markAsReviewed updateWordSched at hx
    cases hfind : List.find? (fun y => y.word = toLowerL w) s0 with
    | none =>
      simp only [hfind] at hx
      exact ih x hx
    | some entry =>
      simp only [hfind] at hx
      cases hget : storeGet s0 w with
      | none =>
        simp only [hget] at hx
        exact ih x hx
      | some existing =>
        simp only [hget] at hx
        rcases mem_storePut _ _ _ hx with rfl | hmem
        · have hentry := ih entry (List.mem_of_find?_eq_some hfind)
          have hlen : (REVIEW_INTERVALS.length : Int) = 6 := by
            rw [REVIEW_INTERVALS_length]
            rfl
          refine ⟨?_, ?_⟩ <;> simp only [hlen] <;> cases remembered <;>
            simp <;> omega
        · exact ih x hmem
  | imp now parsed hr hsafe ih =>
    rename_i s0
    cases parsed with
    | none =>
      intro x hx
      exact ih x (by simpa [importWords] using hx)
    | some data =>
      by_cases he : (payloadWords data).isEmpty = true
      · intro x hx
        refine ih x ?_
        simpa [importWords, he] using hx
      · intro x hx
        refine importLoop_level_inv now (payloadWords data) s0 0 0 ih
          (fun e hme => hsafe e (by simpa [levelSafe, parsedEntries] using hme)) x ?_
        simpa [importWords, he] using hx

/-- Witness for C8 (amended): the single record of a store reached by one
`saveWord` from the empty store satisfies the level bounds. -/
theorem level_invariant_witness :
    0 ≤ ((saveWord 0 [] { word := strL "cat" }).head (by decide)).level
    ∧ ((saveWord 0 [] { word := strL "cat" }).head (by decide)).level ≤ 6 :=
  level_invariant _ (ReachableSafe.save 0 { word := strL "cat" } ReachableSafe.empty)
    _ (List.head_mem _)

end VocabMaster
